import Mathlib

/- Shallow embedding of the game-session core of the IQDuel line-drawing
   server (src/server/new_index.ts and src/server/index.ts; the two files
   implement the same core game logic).  Board geometry, the make_move
   handler, the timer-forced random move and the join_queue handler are
   modelled as executable Lean functions.  External nondeterminism is made
   explicit: the uuid fragments embedded in box ids are supplied by a
   parameter `u`, and the random index chosen by Math.random in
   makeRandomMove is supplied as a parameter `k`.  Timestamps on lines are
   omitted: no game-logic decision reads them. -/

namespace IQDuel

def GRID_SIZE : Nat := 6

def TOTAL_BOXES : Nat := (GRID_SIZE - 1) * (GRID_SIZE - 1)

inductive PlayerNumber where
  | one
  | two
deriving DecidableEq

/-- The `player === 1 ? 2 : 1` turn flip. -/
def otherPlayer : PlayerNumber → PlayerNumber
  | PlayerNumber.one => PlayerNumber.two
  | PlayerNumber.two => PlayerNumber.one

structure Coordinates where
  row : Int
  col : Int
deriving DecidableEq

structure Line where
  start : Coordinates
  «end» : Coordinates
  player : PlayerNumber
deriving DecidableEq

structure Box where
  topLeft : Coordinates
  player : PlayerNumber
  id : String
deriving DecidableEq

inductive GameStatus where
  | waiting
  | active
  | ended
deriving DecidableEq

structure Scores where
  player1 : Nat
  player2 : Nat
deriving DecidableEq

structure GameState where
  lines : List Line
  boxes : List Box
  currentPlayer : PlayerNumber
  scores : Scores
  gameStatus : GameStatus
  winner : Option PlayerNumber
  isPaused : Bool
deriving DecidableEq

def coordsEq (a b : Coordinates) : Bool :=
  a.row == b.row && a.col == b.col

/-- The edge-equality test used by both isLineAlreadyDrawn and findLine:
    a stored line matches the edge (s, e) in either orientation. -/
def lineMatches (l : Line) (s e : Coordinates) : Bool :=
  (coordsEq l.start s && coordsEq l.«end» e) ||
  (coordsEq l.start e && coordsEq l.«end» s)

def isLineAlreadyDrawn (gs : GameState) (move : Line) : Bool :=
  gs.lines.any fun l => lineMatches l move.start move.«end»

/-- findLine fused with the later lines.indexOf lookup: the first line of
    `lines` matching the edge, paired with its index. -/
def findLineAux (lines : List Line) (s e : Coordinates) (i : Nat) : Option (Nat × Line) :=
  match lines with
  | [] => none
  | l :: rest => if lineMatches l s e then some (i, l) else findLineAux rest s e (i + 1)

def findLineIdx (lines : List Line) (s e : Coordinates) : Option (Nat × Line) :=
  findLineAux lines s e 0

/-- One step of the reduce in checkForBoxes: keep `y` only when its index
    is strictly greater. -/
def laterLine (x y : Nat × Line) : Nat × Line :=
  if x.1 < y.1 then y else x

/-- The reduce over [topLine, rightLine, bottomLine, leftLine]. -/
def lastOfFour (t r b l : Nat × Line) : Nat × Line :=
  laterLine (laterLine (laterLine t r) b) l

def mkCoord (row col : Nat) : Coordinates :=
  { row := Int.ofNat row, col := Int.ofNat col }

/-- The body of checkForBoxes for one grid cell: some owner when all four
    bounding edges are found, the owner being the player of the found line
    with the greatest index. -/
def cellBox (lines : List Line) (row col : Nat) : Option PlayerNumber :=
  match findLineIdx lines (mkCoord row col) (mkCoord row (col + 1)),
        findLineIdx lines (mkCoord row (col + 1)) (mkCoord (row + 1) (col + 1)),
        findLineIdx lines (mkCoord (row + 1) col) (mkCoord (row + 1) (col + 1)),
        findLineIdx lines (mkCoord row col) (mkCoord (row + 1) col) with
  | some t, some r, some b, some l => some ((lastOfFour t r b l).2.player)
  | _, _, _, _ => none

/-- Row-major enumeration of the (GRID_SIZE-1) x (GRID_SIZE-1) cells. -/
def cellList : List (Nat × Nat) :=
  (List.range (GRID_SIZE - 1)).flatMap fun row =>
    (List.range (GRID_SIZE - 1)).map fun col => (row, col)

def mkBox (u : Nat → Nat → String) (row col : Nat) (p : PlayerNumber) : Box :=
  { topLeft := mkCoord row col, player := p,
    id := "box-" ++ toString row ++ "-" ++ toString col ++ "-" ++ u row col }

def checkForBoxes (u : Nat → Nat → String) (lines : List Line) : List Box :=
  cellList.flatMap fun rc =>
    match cellBox lines rc.1 rc.2 with
    | some p => [mkBox u rc.1 rc.2 p]
    | none => []

/-- Number of closed regions: 1 for a closed cell, 0 otherwise. -/
def cellScore (lines : List Line) (rc : Nat × Nat) : Nat :=
  match cellBox lines rc.1 rc.2 with
  | some _ => 1
  | none => 0

def regionCount (lines : List Line) : Nat :=
  (cellList.map (cellScore lines)).sum

/-- A horizontal candidate edge, as built by getAvailableMoves. -/
def hLine (row col : Nat) (p : PlayerNumber) : Line :=
  { start := mkCoord row col, «end» := mkCoord row (col + 1), player := p }

/-- A vertical candidate edge, as built by getAvailableMoves. -/
def vLine (row col : Nat) (p : PlayerNumber) : Line :=
  { start := mkCoord row col, «end» := mkCoord (row + 1) col, player := p }

def getAvailableMoves (gs : GameState) : List Line :=
  (List.range GRID_SIZE).flatMap fun row =>
    (List.range GRID_SIZE).flatMap fun col =>
      (if col < GRID_SIZE - 1 then
        (if isLineAlreadyDrawn gs (hLine row col gs.currentPlayer) then []
         else [hLine row col gs.currentPlayer])
       else []) ++
      (if row < GRID_SIZE - 1 then
        (if isLineAlreadyDrawn gs (vLine row col gs.currentPlayer) then []
         else [vLine row col gs.currentPlayer])
       else [])

def addScore (s : Scores) (p : PlayerNumber) (d : Nat) : Scores :=
  match p with
  | PlayerNumber.one => { s with player1 := s.player1 + d }
  | PlayerNumber.two => { s with player2 := s.player2 + d }

def scoreOf (gs : GameState) (p : PlayerNumber) : Nat :=
  match p with
  | PlayerNumber.one => gs.scores.player1
  | PlayerNumber.two => gs.scores.player2

/-- The winner expression of the make_move handler: strictly higher scorer,
    none on a tie. -/
def computeWinner (s : Scores) : Option PlayerNumber :=
  if s.player2 < s.player1 then some PlayerNumber.one
  else if s.player1 < s.player2 then some PlayerNumber.two
  else none

/-- The post-validation mutation shared verbatim by the make_move handler
    (mover = the submitting player) and by Room.makeRandomMove
    (mover = currentPlayer): append the move, recompute the boxes, apply
    the capture rule to scores and turn, and end the game when the box
    count reaches TOTAL_BOXES. -/
def applyMove (u : Nat → Nat → String) (gs : GameState) (move : Line)
    (mover : PlayerNumber) : GameState :=
  let lines2 := gs.lines ++ [move]
  let newBoxes := checkForBoxes u lines2
  let bc : Int := (newBoxes.length : Int) - (gs.boxes.length : Int)
  let scores2 := if 0 < bc then addScore gs.scores mover bc.toNat else gs.scores
  let current2 := if 0 < bc then gs.currentPlayer else otherPlayer mover
  if TOTAL_BOXES ≤ newBoxes.length then
    { gs with
      lines := lines2
      boxes := newBoxes
      scores := scores2
      currentPlayer := current2
      gameStatus := GameStatus.ended
      winner := computeWinner scores2 }
  else
    { gs with
      lines := lines2
      boxes := newBoxes
      scores := scores2
      currentPlayer := current2 }

/-- The per-session validation and mutation of the make_move handler
    (after room lookup and membership, which concern the registry, not the
    session state).  Error messages are abstracted to English. -/
def submitMove (u : Nat → Nat → String) (gs : GameState)
    (playerNumber : PlayerNumber) (move : Line) : Except String GameState :=
  if gs.currentPlayer ≠ playerNumber ∨ gs.gameStatus ≠ GameStatus.active then
    Except.error "not your turn or game is not active"
  else if isLineAlreadyDrawn gs move then
    Except.error "this line has already been drawn"
  else
    Except.ok (applyMove u gs move playerNumber)

/-- Room.makeRandomMove: null when no available move remains, otherwise the
    chosen move and the updated state.  The Math.random draw is modelled by
    the index `k % availableMoves.length`. -/
def makeRandomMove (u : Nat → Nat → String) (k : Nat) (gs : GameState) :
    Option (Line × GameState) :=
  match getAvailableMoves gs with
  | [] => none
  | m :: rest =>
    let mv := (m :: rest).getD (k % (m :: rest).length) m
    some (mv, applyMove u gs mv gs.currentPlayer)

/-- The effect of a timer-expiry call of makeRandomMove on the session
    state: in the null branch the state is left untouched. -/
def randomMoveStep (u : Nat → Nat → String) (k : Nat) (gs : GameState) : GameState :=
  match makeRandomMove u k gs with
  | none => gs
  | some x => x.2

/-- The pause_game handler's effect on the game state. -/
def togglePause (gs : GameState) : GameState :=
  { gs with isPaused := !gs.isPaused }

/-- handlePlayerLeaving on an active game: status forced to ended and, when
    exactly one player remains, the winner set to that player's number. -/
def endByLeave (gs : GameState) (remaining : Option PlayerNumber) : GameState :=
  { gs with
    gameStatus := GameStatus.ended
    winner := match remaining with
      | some p => some p
      | none => gs.winner }

/-- The game state of a freshly created room after createAndJoinRoom has
    set gameStatus to active (Room constructor state otherwise). -/
def initialGameState : GameState :=
  { lines := [], boxes := [], currentPlayer := PlayerNumber.one,
    scores := { player1 := 0, player2 := 0 },
    gameStatus := GameStatus.active, winner := none, isPaused := false }

/-- Session states reachable through the public operations: game start,
    validated player moves, timer-forced random moves (the timer only
    fires while active and unpaused), pause toggles and departures. -/
inductive Reachable : GameState → Prop where
  | init : Reachable initialGameState
  | move (gs gs2 : GameState) (u : Nat → Nat → String) (p : PlayerNumber) (m : Line) :
      Reachable gs → submitMove u gs p m = Except.ok gs2 → Reachable gs2
  | timeout (gs gs2 : GameState) (u : Nat → Nat → String) (k : Nat) (mv : Line) :
      Reachable gs → gs.gameStatus = GameStatus.active → gs.isPaused = false →
      makeRandomMove u k gs = some (mv, gs2) → Reachable gs2
  | pause (gs : GameState) : Reachable gs → Reachable (togglePause gs)
  | leave (gs : GameState) (remaining : Option PlayerNumber) :
      Reachable gs → gs.gameStatus = GameStatus.active →
      Reachable (endByLeave gs remaining)

/-- A move applied to the session state, either by the make_move handler or
    by the timer-forced makeRandomMove (whose mover is currentPlayer). -/
def AppliedMove (gs : GameState) (mover : PlayerNumber) (gs2 : GameState) : Prop :=
  (∃ u m, submitMove u gs mover m = Except.ok gs2) ∨
  (∃ u k mv, mover = gs.currentPlayer ∧ makeRandomMove u k gs = some (mv, gs2))

structure QPlayer where
  socketId : String
  username : String
deriving DecidableEq

inductive JoinReply where
  | ok (msg : String)
  | fail (msg : String)
deriving DecidableEq

structure JoinOutcome where
  replies : List JoinReply
  queue : List QPlayer
  paired : Option (QPlayer × QPlayer)
deriving DecidableEq

/-- The join_queue handler over the matchmaking queue and the socket-id
    sets of the registered rooms.  `replies` lists every callback invocation
    the handler performs, in order; note the room-membership loop is a
    forEach whose early return does not leave the handler. -/
def joinQueue (queue : List QPlayer) (rooms : List (List String))
    (sid uname : String) : JoinOutcome :=
  if queue.any fun p => p.socketId == sid then
    { replies := [JoinReply.fail "you are already in the queue"],
      queue := queue, paired := none }
  else
    let roomReplies := rooms.filterMap fun r =>
      if r.contains sid then some (JoinReply.fail "you are already in a room") else none
    let q2 := queue ++ [{ socketId := sid, username := uname }]
    match q2 with
    | a :: b :: rest =>
      { replies := roomReplies ++ [JoinReply.ok "you entered the waiting queue"],
        queue := rest, paired := some (a, b) }
    | q =>
      { replies := roomReplies ++ [JoinReply.ok "you entered the waiting queue"],
        queue := q, paired := none }

/-- Spec-side notion of an edge being present in the line list,
    disregarding direction. -/
def edgePresentSpec (lines : List Line) (s e : Coordinates) : Prop :=
  ∃ l, l ∈ lines ∧ lineMatches l s e = true

/-- The four findLine lookups of one cell, in source order:
    top, right, bottom, left. -/
def cellEdgeFinds (lines : List Line) (row col : Nat) : List (Option (Nat × Line)) :=
  [findLineIdx lines (mkCoord row col) (mkCoord row (col + 1)),
   findLineIdx lines (mkCoord row (col + 1)) (mkCoord (row + 1) (col + 1)),
   findLineIdx lines (mkCoord (row + 1) col) (mkCoord (row + 1) (col + 1)),
   findLineIdx lines (mkCoord row col) (mkCoord (row + 1) col)]

def reverseLine (m : Line) : Line :=
  { start := m.«end», «end» := m.start, player := m.player }

/-- Spec-side predicate: the move lies inside the N x N point grid
    (the spec requires moves outside it to be rejected). -/
def moveInGridSpec (m : Line) : Prop :=
  0 ≤ m.start.row ∧ m.start.row < (GRID_SIZE : Int) ∧
  0 ≤ m.start.col ∧ m.start.col < (GRID_SIZE : Int) ∧
  0 ≤ m.«end».row ∧ m.«end».row < (GRID_SIZE : Int) ∧
  0 ≤ m.«end».col ∧ m.«end».col < (GRID_SIZE : Int)

instance (m : Line) : Decidable (moveInGridSpec m) := by
  unfold moveInGridSpec
  infer_instance

/-- The projection of a box that the determinism claim is about. -/
def boxTag (b : Box) : Coordinates × PlayerNumber :=
  (b.topLeft, b.player)

/-- A fixed uuid supply for concrete evaluations. -/
def uuid0 : Nat → Nat → String := fun _ _ => "deadbeef"

def e00 : Line := hLine 0 0 PlayerNumber.one

/-- All 60 edges of the 6x6 grid, tagged with player one. -/
def fullLines : List Line := getAvailableMoves initialGameState

/-- An active state on a saturated board (exercises the null branch of
    makeRandomMove). -/
def gsFull : GameState := { initialGameState with lines := fullLines }

/-- A paused active state, for the pause-check counterexample. -/
def gsPausedC1 : GameState := { initialGameState with isPaused := true }

/-- An edge far outside the 6x6 grid. -/
def moveOut : Line :=
  { start := { row := 10, col := 10 }, «end» := { row := 10, col := 11 },
    player := PlayerNumber.one }

/-- A state one edge short of the full board, with boxes consistent with
    its lines; submitting the missing edge ends the game. -/
def gsPre : GameState :=
  { initialGameState with
    lines := fullLines.tail
    boxes := checkForBoxes uuid0 fullLines.tail }

def gsEnd : GameState := applyMove uuid0 gsPre e00 PlayerNumber.one

/-- The state after the first move of a game. -/
def gsAfterFirst : GameState :=
  applyMove uuid0 initialGameState e00 PlayerNumber.one

/-- Four lines closing the top-left cell, the last one drawn by player
    two. -/
def squareLines : List Line :=
  [hLine 0 0 PlayerNumber.one, vLine 0 1 PlayerNumber.one,
   hLine 1 0 PlayerNumber.one, vLine 0 0 PlayerNumber.two]

/-- A state whose line list already contains e00. -/
def gsWithE00 : GameState := { initialGameState with lines := [e00] }

/-- The session invariant: the per-player scores sum to the closed-region
    count, the stored boxes agree with the lines, and an active game is
    never region-saturated. -/
def Inv (gs : GameState) : Prop :=
  gs.scores.player1 + gs.scores.player2 = regionCount gs.lines ∧
  gs.boxes.length = regionCount gs.lines ∧
  (gs.gameStatus = GameStatus.active → regionCount gs.lines < TOTAL_BOXES)

lemma lineMatches_symm (l : Line) (s e : Coordinates) :
    lineMatches l s e = lineMatches l e s := by
  simp only [lineMatches]
  exact Bool.or_comm _ _

lemma isLineAlreadyDrawn_reverse (gs : GameState) (m : Line) :
    isLineAlreadyDrawn gs (reverseLine m) = isLineAlreadyDrawn gs m := by
  simp only [isLineAlreadyDrawn, reverseLine]
  refine congrArg _ (funext fun l => ?_)
  exact lineMatches_symm l m.«end» m.start

lemma findLineAux_isSome (lines : List Line) (s e : Coordinates) (i : Nat) :
    (findLineAux lines s e i).isSome = lines.any fun l => lineMatches l s e := by
  induction lines generalizing i with
  | nil => rfl
  | cons l rest ih =>
    simp only [findLineAux, List.any_cons]
    by_cases h : lineMatches l s e = true
    · simp [h]
    · simp only [Bool.not_eq_true] at h
      simp [h, ih]

lemma findLineAux_append_some (lines more : List Line) (s e : Coordinates) (i : Nat)
    (r : Nat × Line) (h : findLineAux lines s e i = some r) :
    findLineAux (lines ++ more) s e i = some r := by
  induction lines generalizing i with
  | nil => simp [findLineAux] at h
  | cons l rest ih =>
    simp only [findLineAux, List.cons_append] at h ⊢
    by_cases hm : lineMatches l s e = true
    · simpa [hm] using h
    · simp only [Bool.not_eq_true] at hm
      simp only [hm, Bool.false_eq_true, if_false] at h ⊢
      exact ih _ h

lemma findLineIdx_append_some (lines more : List Line) (s e : Coordinates)
    (r : Nat × Line) (h : findLineIdx lines s e = some r) :
    findLineIdx (lines ++ more) s e = some r :=
  findLineAux_append_some lines more s e 0 r h

lemma findLineIdx_isSome_iff (lines : List Line) (s e : Coordinates) :
    (findLineIdx lines s e).isSome = true ↔ edgePresentSpec lines s e := by
  rw [findLineIdx, findLineAux_isSome, List.any_eq_true]
  constructor
  · rintro ⟨l, hl, hm⟩
    exact ⟨l, hl, hm⟩
  · rintro ⟨l, hl, hm⟩
    exact ⟨l, hl, hm⟩

lemma laterLine_cases (x y : Nat × Line) : laterLine x y = x ∨ laterLine x y = y := by
  unfold laterLine
  by_cases h : x.1 < y.1
  · simp [h]
  · simp [h]

lemma left_fst_le_laterLine (x y : Nat × Line) : x.1 ≤ (laterLine x y).1 := by
  unfold laterLine
  by_cases h : x.1 < y.1
  · simp [h]
    omega
  · simp [h]

lemma right_fst_le_laterLine (x y : Nat × Line) : y.1 ≤ (laterLine x y).1 := by
  unfold laterLine
  by_cases h : x.1 < y.1
  · simp [h]
  · simp [h]
    omega

lemma lastOfFour_cases (t r b l : Nat × Line) :
    lastOfFour t r b l = t ∨ lastOfFour t r b l = r ∨
    lastOfFour t r b l = b ∨ lastOfFour t r b l = l := by
  unfold lastOfFour
  rcases laterLine_cases (laterLine (laterLine t r) b) l with h | h
  · rw [h]
    rcases laterLine_cases (laterLine t r) b with h2 | h2
    · rw [h2]
      rcases laterLine_cases t r with h3 | h3
      · rw [h3]; exact Or.inl rfl
      · rw [h3]; exact Or.inr (Or.inl rfl)
    · rw [h2]; exact Or.inr (Or.inr (Or.inl rfl))
  · rw [h]; exact Or.inr (Or.inr (Or.inr rfl))

lemma fst_le_lastOfFour (t r b l : Nat × Line) :
    t.1 ≤ (lastOfFour t r b l).1 ∧ r.1 ≤ (lastOfFour t r b l).1 ∧
    b.1 ≤ (lastOfFour t r b l).1 ∧ l.1 ≤ (lastOfFour t r b l).1 := by
  unfold lastOfFour
  have h1 := left_fst_le_laterLine t r
  have h2 := right_fst_le_laterLine t r
  have h3 := left_fst_le_laterLine (laterLine t r) b
  have h4 := right_fst_le_laterLine (laterLine t r) b
  have h5 := left_fst_le_laterLine (laterLine (laterLine t r) b) l
  have h6 := right_fst_le_laterLine (laterLine (laterLine t r) b) l
  exact ⟨le_trans h1 (le_trans h3 h5), le_trans h2 (le_trans h3 h5),
    le_trans h4 h5, h6⟩

lemma cellBox_append_some (lines more : List Line) (row col : Nat) (p : PlayerNumber)
    (h : cellBox lines row col = some p) :
    ∃ q, cellBox (lines ++ more) row col = some q := by
  unfold cellBox at h ⊢
  rcases ht : findLineIdx lines (mkCoord row col) (mkCoord row (col + 1)) with _ | t
  · rw [ht] at h; exact absurd h (by simp)
  rcases hr : findLineIdx lines (mkCoord row (col + 1)) (mkCoord (row + 1) (col + 1)) with _ | r
  · rw [ht, hr] at h; exact absurd h (by simp)
  rcases hb : findLineIdx lines (mkCoord (row + 1) col) (mkCoord (row + 1) (col + 1)) with _ | b
  · rw [ht, hr, hb] at h; exact absurd h (by simp)
  rcases hl : findLineIdx lines (mkCoord row col) (mkCoord (row + 1) col) with _ | l
  · rw [ht, hr, hb, hl] at h; exact absurd h (by simp)
  rw [findLineIdx_append_some lines more _ _ t ht,
    findLineIdx_append_some lines more _ _ r hr,
    findLineIdx_append_some lines more _ _ b hb,
    findLineIdx_append_some lines more _ _ l hl]
  exact ⟨_, rfl⟩

lemma cellScore_mono (lines more : List Line) (rc : Nat × Nat) :
    cellScore lines rc ≤ cellScore (lines ++ more) rc := by
  unfold cellScore
  rcases h : cellBox lines rc.1 rc.2 with _ | p
  · exact Nat.zero_le _
  · obtain ⟨q, hq⟩ := cellBox_append_some lines more rc.1 rc.2 p h
    rw [hq]

lemma regionCount_mono (lines more : List Line) :
    regionCount lines ≤ regionCount (lines ++ more) := by
  unfold regionCount
  exact List.sum_le_sum fun rc _ => cellScore_mono lines more rc

lemma length_checkForBoxes (u : Nat → Nat → String) (lines : List Line) :
    (checkForBoxes u lines).length = regionCount lines := by
  unfold checkForBoxes regionCount
  rw [List.length_flatMap]
  refine congrArg _ (List.map_congr_left fun rc _ => ?_)
  simp only [Function.comp_apply, cellScore]
  rcases cellBox lines rc.1 rc.2 with _ | p
  · rfl
  · rfl

lemma mem_cellList_bounds : ∀ rc ∈ cellList, rc.1 < GRID_SIZE - 1 ∧ rc.2 < GRID_SIZE - 1 := by
  decide

lemma cellList_mem_of_bounds (row col : Nat) (hr : row < GRID_SIZE - 1)
    (hc : col < GRID_SIZE - 1) : (row, col) ∈ cellList := by
  unfold cellList
  rw [List.mem_flatMap]
  refine ⟨row, List.mem_range.mpr hr, ?_⟩
  rw [List.mem_map]
  exact ⟨col, List.mem_range.mpr hc, rfl⟩

lemma mkCoord_inj (a b c d : Nat) : mkCoord a b = mkCoord c d ↔ a = c ∧ b = d := by
  unfold mkCoord
  constructor
  · intro h
    rw [Coordinates.mk.injEq] at h
    exact ⟨Int.ofNat.inj h.1, Int.ofNat.inj h.2⟩
  · rintro ⟨rfl, rfl⟩
    rfl

lemma cellBox_isSome_iff (lines : List Line) (row col : Nat) :
    (cellBox lines row col).isSome = true ↔
      (edgePresentSpec lines (mkCoord row col) (mkCoord row (col + 1)) ∧
       edgePresentSpec lines (mkCoord row (col + 1)) (mkCoord (row + 1) (col + 1)) ∧
       edgePresentSpec lines (mkCoord (row + 1) col) (mkCoord (row + 1) (col + 1)) ∧
       edgePresentSpec lines (mkCoord row col) (mkCoord (row + 1) col)) := by
  rw [← findLineIdx_isSome_iff, ← findLineIdx_isSome_iff, ← findLineIdx_isSome_iff,
    ← findLineIdx_isSome_iff]
  unfold cellBox
  rcases findLineIdx lines (mkCoord row col) (mkCoord row (col + 1)) with _ | t <;>
    rcases findLineIdx lines (mkCoord row (col + 1)) (mkCoord (row + 1) (col + 1)) with _ | r <;>
    rcases findLineIdx lines (mkCoord (row + 1) col) (mkCoord (row + 1) (col + 1)) with _ | b <;>
    rcases findLineIdx lines (mkCoord row col) (mkCoord (row + 1) col) with _ | l <;>
    simp

lemma cellBox_owner (lines : List Line) (row col : Nat) (p : PlayerNumber)
    (h : cellBox lines row col = some p) :
    ∃ i l, some (i, l) ∈ cellEdgeFinds lines row col ∧ p = l.player ∧
      ∀ j l2, some (j, l2) ∈ cellEdgeFinds lines row col → j ≤ i := by
  unfold cellBox at h
  rcases ht : findLineIdx lines (mkCoord row col) (mkCoord row (col + 1)) with _ | t <;>
    rw [ht] at h
  · exact absurd h (by simp)
  rcases hr : findLineIdx lines (mkCoord row (col + 1)) (mkCoord (row + 1) (col + 1)) with _ | r <;>
    rw [hr] at h
  · exact absurd h (by simp)
  rcases hb : findLineIdx lines (mkCoord (row + 1) col) (mkCoord (row + 1) (col + 1)) with _ | b <;>
    rw [hb] at h
  · exact absurd h (by simp)
  rcases hl : findLineIdx lines (mkCoord row col) (mkCoord (row + 1) col) with _ | l <;>
    rw [hl] at h
  · exact absurd h (by simp)
  have hp : p = (lastOfFour t r b l).2.player := by
    simpa using h.symm
  have hmem : some (lastOfFour t r b l) ∈ cellEdgeFinds lines row col := by
    unfold cellEdgeFinds
    rw [ht, hr, hb, hl]
    rcases lastOfFour_cases t r b l with h4 | h4 | h4 | h4 <;> rw [h4] <;> simp
  have hle := fst_le_lastOfFour t r b l
  refine ⟨(lastOfFour t r b l).1, (lastOfFour t r b l).2, by simpa using hmem, hp, ?_⟩
  intro j l2 hj
  unfold cellEdgeFinds at hj
  rw [ht, hr, hb, hl] at hj
  simp only [List.mem_cons, List.mem_singleton, List.not_mem_nil, or_false] at hj
  rcases hj with hj | hj | hj | hj
  all_goals
    have := congrArg (fun o => Option.map Prod.fst o) hj
    simp only [Option.map_some] at this
    have hfst : j = _ := Option.some.inj this
  · exact hfst ▸ hle.1
  · exact hfst ▸ hle.2.1
  · exact hfst ▸ hle.2.2.1
  · exact hfst ▸ hle.2.2.2

lemma mem_checkForBoxes (u : Nat → Nat → String) (lines : List Line) (bx : Box) :
    bx ∈ checkForBoxes u lines ↔
      ∃ rc ∈ cellList, ∃ p, cellBox lines rc.1 rc.2 = some p ∧ bx = mkBox u rc.1 rc.2 p := by
  unfold checkForBoxes
  rw [List.mem_flatMap]
  constructor
  · rintro ⟨rc, hrc, hmem⟩
    rcases h : cellBox lines rc.1 rc.2 with _ | p <;> rw [h] at hmem
    · simp at hmem
    · simp only [List.mem_singleton] at hmem
      exact ⟨rc, hrc, p, h, hmem⟩
  · rintro ⟨rc, hrc, p, h, rfl⟩
    exact ⟨rc, hrc, by rw [h]; simp⟩

lemma checkForBoxes_map_tag (u : Nat → Nat → String) (lines : List Line) :
    (checkForBoxes u lines).map boxTag =
      cellList.flatMap fun rc =>
        match cellBox lines rc.1 rc.2 with
        | some p => [(mkCoord rc.1 rc.2, p)]
        | none => [] := by
  unfold checkForBoxes
  rw [List.map_flatMap]
  have hfun : (fun rc : Nat × Nat =>
      (match cellBox lines rc.1 rc.2 with
        | some p => [mkBox u rc.1 rc.2 p]
        | none => []).map boxTag) =
      (fun rc : Nat × Nat =>
        match cellBox lines rc.1 rc.2 with
        | some p => [(mkCoord rc.1 rc.2, p)]
        | none => []) := by
    funext rc
    rcases cellBox lines rc.1 rc.2 with _ | p
    · rfl
    · rfl
  rw [hfun]

lemma addScore_sum (s : Scores) (p : PlayerNumber) (d : Nat) :
    (addScore s p d).player1 + (addScore s p d).player2 = s.player1 + s.player2 + d := by
  cases p <;> simp [addScore] <;> omega

lemma applyMove_lines (u : Nat → Nat → String) (gs : GameState) (m : Line)
    (mover : PlayerNumber) : (applyMove u gs m mover).lines = gs.lines ++ [m] := by
  simp only [applyMove]
  split <;> rfl

lemma applyMove_boxes (u : Nat → Nat → String) (gs : GameState) (m : Line)
    (mover : PlayerNumber) :
    (applyMove u gs m mover).boxes = checkForBoxes u (gs.lines ++ [m]) := by
  simp only [applyMove]
  split <;> rfl

lemma applyMove_isPaused (u : Nat → Nat → String) (gs : GameState) (m : Line)
    (mover : PlayerNumber) : (applyMove u gs m mover).isPaused = gs.isPaused := by
  simp only [applyMove]
  split <;> rfl

lemma applyMove_scores_current (u : Nat → Nat → String) (gs : GameState) (m : Line)
    (mover : PlayerNumber) (hb : gs.boxes.length = regionCount gs.lines) :
    (regionCount gs.lines < regionCount (gs.lines ++ [m]) →
      (applyMove u gs m mover).scores =
        addScore gs.scores mover (regionCount (gs.lines ++ [m]) - regionCount gs.lines) ∧
      (applyMove u gs m mover).currentPlayer = gs.currentPlayer) ∧
    (regionCount (gs.lines ++ [m]) ≤ regionCount gs.lines →
      (applyMove u gs m mover).scores = gs.scores ∧
      (applyMove u gs m mover).currentPlayer = otherPlayer mover) := by
  simp only [applyMove, length_checkForBoxes, hb]
  constructor
  · intro hlt
    have hc : (0:Int) < (regionCount (gs.lines ++ [m]) : Int) - (regionCount gs.lines : Int) := by
      omega
    have ht : ((regionCount (gs.lines ++ [m]) : Int) - (regionCount gs.lines : Int)).toNat =
        regionCount (gs.lines ++ [m]) - regionCount gs.lines := by
      omega
    rw [if_pos hc, if_pos hc, ht]
    split <;> exact ⟨rfl, rfl⟩
  · intro hle
    have hc : ¬ (0:Int) < (regionCount (gs.lines ++ [m]) : Int) - (regionCount gs.lines : Int) := by
      omega
    rw [if_neg hc, if_neg hc]
    split <;> exact ⟨rfl, rfl⟩

lemma applyMove_status (u : Nat → Nat → String) (gs : GameState) (m : Line)
    (mover : PlayerNumber) :
    (TOTAL_BOXES ≤ regionCount (gs.lines ++ [m]) →
      (applyMove u gs m mover).gameStatus = GameStatus.ended ∧
      (applyMove u gs m mover).winner = computeWinner (applyMove u gs m mover).scores) ∧
    (regionCount (gs.lines ++ [m]) < TOTAL_BOXES →
      (applyMove u gs m mover).gameStatus = gs.gameStatus ∧
      (applyMove u gs m mover).winner = gs.winner) := by
  simp only [applyMove, length_checkForBoxes]
  constructor
  · intro h
    rw [if_pos h]
    exact ⟨rfl, rfl⟩
  · intro h
    rw [if_neg (by omega)]
    exact ⟨rfl, rfl⟩

lemma submitMove_ok_iff (u : Nat → Nat → String) (gs : GameState) (p : PlayerNumber)
    (m : Line) (gs2 : GameState) :
    submitMove u gs p m = Except.ok gs2 ↔
      (gs.currentPlayer = p ∧ gs.gameStatus = GameStatus.active ∧
       isLineAlreadyDrawn gs m = false ∧ gs2 = applyMove u gs m p) := by
  unfold submitMove
  split_ifs with h1 h2
  · constructor
    · intro h
      exact absurd h (by simp)
    · rintro ⟨hc, hs, _, _⟩
      rcases h1 with h1 | h1 <;> exact absurd (by assumption) h1
  · constructor
    · intro h
      exact absurd h (by simp)
    · rintro ⟨_, _, hd, _⟩
      rw [hd] at h2
      exact absurd h2 (by simp)
  · push_neg at h1
    simp only [Bool.not_eq_true] at h2
    constructor
    · intro h
      have := Except.ok.inj h
      exact ⟨h1.1, h1.2, h2, this.symm⟩
    · rintro ⟨_, _, _, rfl⟩
      rfl

lemma submitMove_error_of_drawn (u : Nat → Nat → String) (gs : GameState)
    (p : PlayerNumber) (m : Line) (h : isLineAlreadyDrawn gs m = true) :
    ∃ e, submitMove u gs p m = Except.error e := by
  unfold submitMove
  rw [h]
  split_ifs with h1 h2
  · exact ⟨_, rfl⟩
  · exact ⟨_, rfl⟩
  · exact absurd rfl h2

lemma makeRandomMove_some_eq (u : Nat → Nat → String) (k : Nat) (gs : GameState)
    (mv : Line) (gs2 : GameState) (h : makeRandomMove u k gs = some (mv, gs2)) :
    gs2 = applyMove u gs mv gs.currentPlayer := by
  unfold makeRandomMove at h
  rcases havail : getAvailableMoves gs with _ | ⟨a, rest⟩ <;> rw [havail] at h
  · exact absurd h (by simp)
  · simp only [Option.some.injEq, Prod.mk.injEq] at h
    rw [← h.1]
    exact h.2.symm

lemma inv_applyMove (u : Nat → Nat → String) (gs : GameState) (m : Line)
    (mover : PlayerNumber) (h : Inv gs) : Inv (applyMove u gs m mover) := by
  obtain ⟨h1, h2, h3⟩ := h
  have hmono := regionCount_mono gs.lines [m]
  have hsc := applyMove_scores_current u gs m mover h2
  have hstat := applyMove_status u gs m mover
  have hlines := applyMove_lines u gs m mover
  have hboxes := applyMove_boxes u gs m mover
  refine ⟨?_, ?_, ?_⟩
  · rw [hlines]
    rcases Nat.lt_or_ge (regionCount gs.lines) (regionCount (gs.lines ++ [m])) with hlt | hge
    · rw [(hsc.1 hlt).1, addScore_sum, h1]
      omega
    · have heq : regionCount (gs.lines ++ [m]) = regionCount gs.lines := le_antisymm hge hmono
      rw [(hsc.2 hge).1, h1, heq]
  · rw [hboxes, hlines, length_checkForBoxes]
  · intro hact
    rw [hlines]
    rcases Nat.lt_or_ge (regionCount (gs.lines ++ [m])) TOTAL_BOXES with hlt | hge
    · exact hlt
    · rw [(hstat.1 hge).1] at hact
      exact absurd hact (by simp)

lemma inv_initial : Inv initialGameState := by
  refine ⟨by decide, by decide, fun _ => by decide⟩

lemma reachable_inv (gs : GameState) (h : Reachable gs) : Inv gs := by
  induction h with
  | init => exact inv_initial
  | move gs gs2 u p m _ hok ih =>
    have := (submitMove_ok_iff u gs p m gs2).mp hok
    rw [this.2.2.2]
    exact inv_applyMove u gs m p ih
  | timeout gs gs2 u k mv _ _ _ hsome ih =>
    rw [makeRandomMove_some_eq u k gs mv gs2 hsome]
    exact inv_applyMove u gs mv gs.currentPlayer ih
  | pause gs _ ih =>
    obtain ⟨h1, h2, h3⟩ := ih
    exact ⟨h1, h2, h3⟩
  | leave gs remaining _ _ ih =>
    obtain ⟨h1, h2, _⟩ := ih
    refine ⟨h1, h2, fun hact => ?_⟩
    simp only [endByLeave] at hact
    exact absurd hact (by simp)

lemma drawn_iff_edgePresent (gs : GameState) (m : Line) :
    isLineAlreadyDrawn gs m = true ↔ edgePresentSpec gs.lines m.start m.«end» := by
  unfold isLineAlreadyDrawn edgePresentSpec
  rw [List.any_eq_true]

lemma avail_nil_drawn (gs : GameState) (h : getAvailableMoves gs = []) :
    (∀ row col, row < GRID_SIZE → col < GRID_SIZE - 1 →
      isLineAlreadyDrawn gs (hLine row col gs.currentPlayer) = true) ∧
    (∀ row col, row < GRID_SIZE - 1 → col < GRID_SIZE →
      isLineAlreadyDrawn gs (vLine row col gs.currentPlayer) = true) := by
  unfold getAvailableMoves at h
  rw [List.flatMap_eq_nil_iff] at h
  constructor
  · intro row col hr hc
    have h2 := h row (List.mem_range.mpr hr)
    rw [List.flatMap_eq_nil_iff] at h2
    have h3 := h2 col (List.mem_range.mpr (by omega))
    rw [List.append_eq_nil] at h3
    have h4 := h3.1
    rw [if_pos hc] at h4
    by_contra hnd
    simp only [Bool.not_eq_true] at hnd
    rw [hnd] at h4
    exact absurd h4 (by simp)
  · intro row col hr hc
    have h2 := h row (List.mem_range.mpr (by omega))
    rw [List.flatMap_eq_nil_iff] at h2
    have h3 := h2 col (List.mem_range.mpr hc)
    rw [List.append_eq_nil] at h3
    have h4 := h3.2
    rw [if_pos hr] at h4
    by_contra hnd
    simp only [Bool.not_eq_true] at hnd
    rw [hnd] at h4
    exact absurd h4 (by simp)

lemma cellScore_eq_one (lines : List Line) (rc : Nat × Nat)
    (h : (cellBox lines rc.1 rc.2).isSome = true) : cellScore lines rc = 1 := by
  unfold cellScore
  rcases hc : cellBox lines rc.1 rc.2 with _ | p
  · rw [hc] at h
    exact absurd h (by simp)
  · rfl

lemma regionCount_full (gs : GameState) (h : getAvailableMoves gs = []) :
    regionCount gs.lines = TOTAL_BOXES := by
  obtain ⟨hh, hv⟩ := avail_nil_drawn gs h
  have hclosed : ∀ rc ∈ cellList, (cellBox gs.lines rc.1 rc.2).isSome = true := by
    intro rc hrc
    obtain ⟨hr, hc⟩ := mem_cellList_bounds rc hrc
    rw [cellBox_isSome_iff]
    refine ⟨?_, ?_, ?_, ?_⟩
    · exact (drawn_iff_edgePresent gs (hLine rc.1 rc.2 gs.currentPlayer)).mp
        (hh rc.1 rc.2 (by omega) hc)
    · exact (drawn_iff_edgePresent gs (vLine rc.1 (rc.2 + 1) gs.currentPlayer)).mp
        (hv rc.1 (rc.2 + 1) hr (by omega))
    · exact (drawn_iff_edgePresent gs (hLine (rc.1 + 1) rc.2 gs.currentPlayer)).mp
        (hh (rc.1 + 1) rc.2 (by omega) hc)
    · exact (drawn_iff_edgePresent gs (vLine rc.1 rc.2 gs.currentPlayer)).mp
        (hv rc.1 rc.2 hr (by omega))
  unfold regionCount
  rw [List.map_congr_left fun rc hrc => cellScore_eq_one gs.lines rc (hclosed rc hrc)]
  decide

lemma reachable_active_avail (gs : GameState) (h : Reachable gs)
    (ha : gs.gameStatus = GameStatus.active) : getAvailableMoves gs ≠ [] := by
  intro hnil
  have hlt := (reachable_inv gs h).2.2 ha
  rw [regionCount_full gs hnil] at hlt
  exact absurd hlt (by omega)

/-- C1 (amended): the make_move handler fails with an error exactly when
the game status is not active, or it is not the submitting player's turn,
or the move duplicates an existing edge in either orientation; it performs
no pause check and no grid-bounds check, and when the three implemented
checks pass the move is appended and the state updated. -/
theorem submitMove_accepts_iff (u : Nat → Nat → String) (gs : GameState)
    (p : PlayerNumber) (m : Line) :
    (gs.currentPlayer = p ∧ gs.gameStatus = GameStatus.active ∧
        isLineAlreadyDrawn gs m = false →
      submitMove u gs p m = Except.ok (applyMove u gs m p) ∧
      (applyMove u gs m p).lines = gs.lines ++ [m]) ∧
    (¬(gs.currentPlayer = p ∧ gs.gameStatus = GameStatus.active ∧
        isLineAlreadyDrawn gs m = false) →
      ∃ e, submitMove u gs p m = Except.error e) := by
  constructor
  · rintro ⟨h1, h2, h3⟩
    exact ⟨(submitMove_ok_iff u gs p m _).mpr ⟨h1, h2, h3, rfl⟩, applyMove_lines u gs m p⟩
  · intro hneg
    unfold submitMove
    split_ifs with g1 g2
    · exact ⟨_, rfl⟩
    · exact ⟨_, rfl⟩
    · push_neg at g1
      simp only [Bool.not_eq_true] at g2
      exact absurd ⟨g1.1, g1.2, g2⟩ hneg

/-- C1 witness: in the fresh active state, player one's first move is
accepted and appended. -/
theorem submitMove_accepts_iff_witness :
    submitMove uuid0 initialGameState PlayerNumber.one e00 =
      Except.ok (applyMove uuid0 initialGameState e00 PlayerNumber.one) :=
  ((submitMove_accepts_iff uuid0 initialGameState PlayerNumber.one e00).1
    ⟨rfl, rfl, by decide⟩).1

/-- C1 counterexample: the handler accepts a move while the game is paused
and the move lies outside the 6 x 6 grid, contradicting the claim that it
must fail in either situation. -/
theorem submitMove_paused_outside_grid_accepted :
    gsPausedC1.isPaused = true ∧ gsPausedC1.gameStatus = GameStatus.active ∧
    gsPausedC1.currentPlayer = PlayerNumber.one ∧ ¬ moveInGridSpec moveOut ∧
    ∃ gs2, submitMove uuid0 gsPausedC1 PlayerNumber.one moveOut = Except.ok gs2 ∧
      gs2.lines = gsPausedC1.lines ++ [moveOut] ∧ gs2.isPaused = true := by
  refine ⟨rfl, rfl, rfl, by decide,
    applyMove uuid0 gsPausedC1 moveOut PlayerNumber.one, rfl, by decide, by decide⟩

/-- C2: in every reachable session state the two players' scores sum to
the number of closed regions checkForBoxes reports on the current line
list. -/
theorem score_sum_eq_region_count (gs : GameState) (h : Reachable gs)
    (u : Nat → Nat → String) :
    gs.scores.player1 + gs.scores.player2 = (checkForBoxes u gs.lines).length := by
  rw [length_checkForBoxes]
  exact (reachable_inv gs h).1

/-- C2 witness: the invariant evaluated in the initial reachable state. -/
theorem score_sum_eq_region_count_witness :
    initialGameState.scores.player1 + initialGameState.scores.player2 =
      (checkForBoxes uuid0 initialGameState.lines).length :=
  score_sum_eq_region_count initialGameState Reachable.init uuid0

/-- C3: for every line sequence and every cell of the 5 x 5 region grid,
checkForBoxes reports the cell closed iff all four bounding edges are
present in the lines disregarding direction, and the reported owner is the
player of the found edge with the highest insertion index among the four. -/
theorem checkForBoxes_cell_closed_iff_owner (u : Nat → Nat → String)
    (lines : List Line) (row col : Nat) (hr : row < GRID_SIZE - 1)
    (hc : col < GRID_SIZE - 1) :
    ((∃ bx, bx ∈ checkForBoxes u lines ∧ bx.topLeft = mkCoord row col) ↔
      (edgePresentSpec lines (mkCoord row col) (mkCoord row (col + 1)) ∧
       edgePresentSpec lines (mkCoord row (col + 1)) (mkCoord (row + 1) (col + 1)) ∧
       edgePresentSpec lines (mkCoord (row + 1) col) (mkCoord (row + 1) (col + 1)) ∧
       edgePresentSpec lines (mkCoord row col) (mkCoord (row + 1) col))) ∧
    (∀ bx, bx ∈ checkForBoxes u lines → bx.topLeft = mkCoord row col →
      ∃ i l, some (i, l) ∈ cellEdgeFinds lines row col ∧ bx.player = l.player ∧
        ∀ j l2, some (j, l2) ∈ cellEdgeFinds lines row col → j ≤ i) := by
  constructor
  · constructor
    · rintro ⟨bx, hmem, htl⟩
      obtain ⟨rc, hrc, p, hcb, rfl⟩ := (mem_checkForBoxes u lines bx).mp hmem
      simp only [mkBox] at htl
      obtain ⟨hre, hce⟩ := (mkCoord_inj rc.1 rc.2 row col).mp htl
      rw [hre, hce] at hcb
      have : (cellBox lines row col).isSome = true := by rw [hcb]; rfl
      exact (cellBox_isSome_iff lines row col).mp this
    · rintro ⟨e1, e2, e3, e4⟩
      have hsome : (cellBox lines row col).isSome = true :=
        (cellBox_isSome_iff lines row col).mpr ⟨e1, e2, e3, e4⟩
      obtain ⟨p, hp⟩ := Option.isSome_iff_exists.mp hsome
      refine ⟨mkBox u row col p, ?_, rfl⟩
      exact (mem_checkForBoxes u lines _).mpr
        ⟨(row, col), cellList_mem_of_bounds row col hr hc, p, hp, rfl⟩
  · intro bx hmem htl
    obtain ⟨rc, hrc, p, hcb, rfl⟩ := (mem_checkForBoxes u lines bx).mp hmem
    simp only [mkBox] at htl
    obtain ⟨hre, hce⟩ := (mkCoord_inj rc.1 rc.2 row col).mp htl
    rw [hre, hce] at hcb
    obtain ⟨i, l, hm2, hpl, hmax⟩ := cellBox_owner lines row col p hcb
    exact ⟨i, l, hm2, by simp only [mkBox]; exact hpl, hmax⟩

/-- C3 witness: the square around cell (0,0) whose last edge was drawn by
player two is reported closed. -/
theorem checkForBoxes_cell_closed_iff_owner_witness :
    ∃ bx, bx ∈ checkForBoxes uuid0 squareLines ∧ bx.topLeft = mkCoord 0 0 :=
  ((checkForBoxes_cell_closed_iff_owner uuid0 squareLines 0 0 (by decide) (by decide)).1).mpr
    ⟨⟨hLine 0 0 PlayerNumber.one, by decide, by decide⟩,
     ⟨vLine 0 1 PlayerNumber.one, by decide, by decide⟩,
     ⟨hLine 1 0 PlayerNumber.one, by decide, by decide⟩,
     ⟨vLine 0 0 PlayerNumber.two, by decide, by decide⟩⟩

/-- C4: for a reachable active state and an applied move, a positive
region-count delta adds the delta to the mover's score and keeps the turn
with the mover; a zero delta leaves the scores unchanged and passes the
turn to the other player. -/
theorem capture_rule (gs gs2 : GameState) (mover : PlayerNumber)
    (hre : Reachable gs) (_ha : gs.gameStatus = GameStatus.active)
    (hm : AppliedMove gs mover gs2) :
    (regionCount gs.lines < regionCount gs2.lines →
      scoreOf gs2 mover = scoreOf gs mover +
        (regionCount gs2.lines - regionCount gs.lines) ∧
      scoreOf gs2 (otherPlayer mover) = scoreOf gs (otherPlayer mover) ∧
      gs2.currentPlayer = mover) ∧
    (regionCount gs2.lines = regionCount gs.lines →
      gs2.scores = gs.scores ∧ gs2.currentPlayer = otherPlayer mover) := by
  have hext : ∃ u m, gs.currentPlayer = mover ∧ gs2 = applyMove u gs m mover := by
    rcases hm with ⟨u, m, hok⟩ | ⟨u, k, mv, hcur, hsome⟩
    · have h := (submitMove_ok_iff u gs mover m gs2).mp hok
      exact ⟨u, m, h.1, h.2.2.2⟩
    · refine ⟨u, mv, hcur.symm, ?_⟩
      rw [makeRandomMove_some_eq u k gs mv gs2 hsome, hcur]
  obtain ⟨u, m, hcur, rfl⟩ := hext
  have hb := (reachable_inv gs hre).2.1
  have hsc := applyMove_scores_current u gs m mover hb
  have hlines := applyMove_lines u gs m mover
  rw [hlines]
  constructor
  · intro hlt
    have hcap := hsc.1 hlt
    refine ⟨?_, ?_, ?_⟩
    · cases mover <;> rw [scoreOf, scoreOf, hcap.1] <;> simp [addScore]
    · cases mover <;> rw [otherPlayer, scoreOf, scoreOf, hcap.1] <;> simp [addScore]
    · rw [hcap.2, hcur]
  · intro heq
    have hnc := hsc.2 (le_of_eq heq)
    exact ⟨hnc.1, hnc.2⟩

/-- C4 witness: the first move of a game closes no region, so the scores
stay and the turn passes to player two. -/
theorem capture_rule_witness :
    gsAfterFirst.scores = initialGameState.scores ∧
    gsAfterFirst.currentPlayer = otherPlayer PlayerNumber.one :=
  (capture_rule initialGameState gsAfterFirst PlayerNumber.one Reachable.init rfl
    (Or.inl ⟨uuid0, e00, rfl⟩)).2 (by decide)

/-- C5: when an applied move brings the closed-region count to
TOTAL_BOXES, the game status becomes ended and the winner is the strictly
higher scorer, or none when the scores are equal. -/
theorem game_ends_when_full (u : Nat → Nat → String) (gs gs2 : GameState)
    (mover : PlayerNumber) (hm : AppliedMove gs mover gs2)
    (hfull : (checkForBoxes u gs2.lines).length = TOTAL_BOXES) :
    gs2.gameStatus = GameStatus.ended ∧
    (gs2.scores.player2 < gs2.scores.player1 → gs2.winner = some PlayerNumber.one) ∧
    (gs2.scores.player1 < gs2.scores.player2 → gs2.winner = some PlayerNumber.two) ∧
    (gs2.scores.player1 = gs2.scores.player2 → gs2.winner = none) := by
  have hext : ∃ u2 m, gs2 = applyMove u2 gs m mover := by
    rcases hm with ⟨u2, m, hok⟩ | ⟨u2, k, mv, hcur, hsome⟩
    · exact ⟨u2, m, ((submitMove_ok_iff u2 gs mover m gs2).mp hok).2.2.2⟩
    · refine ⟨u2, mv, ?_⟩
      rw [makeRandomMove_some_eq u2 k gs mv gs2 hsome, hcur]
  obtain ⟨u2, m, hgs2⟩ := hext
  rw [length_checkForBoxes] at hfull
  have hlines : gs2.lines = gs.lines ++ [m] := by rw [hgs2]; exact applyMove_lines u2 gs m mover
  rw [hlines] at hfull
  have hstat := (applyMove_status u2 gs m mover).1 (le_of_eq hfull.symm)
  rw [← hgs2] at hstat
  refine ⟨hstat.1, ?_, ?_, ?_⟩ <;> intro hcmp <;> rw [hstat.2] <;>
    unfold computeWinner <;> split_ifs <;> first | rfl | omega

/-- C5 witness: submitting the one missing edge of an otherwise full board
ends the game with player one as winner. -/
theorem game_ends_when_full_witness :
    gsEnd.gameStatus = GameStatus.ended ∧ gsEnd.winner = some PlayerNumber.one := by
  have h := game_ends_when_full uuid0 gsPre gsEnd PlayerNumber.one
    (Or.inl ⟨uuid0, e00, rfl⟩) (by decide)
  exact ⟨h.1, h.2.1 (by decide)⟩

/-- C6: the region set and the owners reported by checkForBoxes depend
only on the line sequence, not on the uuid supply that salts the box
ids. -/
theorem checkForBoxes_deterministic (u1 u2 : Nat → Nat → String) (lines : List Line) :
    (checkForBoxes u1 lines).map boxTag = (checkForBoxes u2 lines).map boxTag := by
  rw [checkForBoxes_map_tag, checkForBoxes_map_tag]

/-- C7 (amended): when no legal move remains, makeRandomMove returns null
without raising an error and leaves the session state entirely unchanged;
in particular the turn stays with the current player rather than
passing. -/
theorem makeRandomMove_no_moves_spec (u : Nat → Nat → String) (k : Nat)
    (gs : GameState) (h : getAvailableMoves gs = []) :
    makeRandomMove u k gs = none ∧ randomMoveStep u k gs = gs := by
  have h1 : makeRandomMove u k gs = none := by
    unfold makeRandomMove
    rw [h]
  refine ⟨h1, ?_⟩
  unfold randomMoveStep
  rw [h1]

/-- C7 witness: on the saturated board the auto-move plays nothing and
changes nothing. -/
theorem makeRandomMove_no_moves_spec_witness :
    makeRandomMove uuid0 3 gsFull = none ∧ randomMoveStep uuid0 3 gsFull = gsFull :=
  makeRandomMove_no_moves_spec uuid0 3 gsFull (by decide)

/-- C7 counterexample: with no legal move remaining in an active state,
the turn does not pass to the other player: the state after the timer
callback is identical, still with player one to move. -/
theorem makeRandomMove_no_moves_keeps_turn :
    gsFull.gameStatus = GameStatus.active ∧
    gsFull.currentPlayer = PlayerNumber.one ∧
    makeRandomMove uuid0 0 gsFull = none ∧
    randomMoveStep uuid0 0 gsFull = gsFull ∧
    (randomMoveStep uuid0 0 gsFull).currentPlayer ≠ otherPlayer gsFull.currentPlayer := by
  exact ⟨rfl, rfl, by decide, by decide, by decide⟩

/-- C8: on a join_queue request from a socket already bound to a room, the
handler reports the already-in-a-room failure but, because the forEach
early return does not leave the handler, still enqueues the player and
then also reports success. -/
theorem joinQueue_in_room_still_enqueued :
    (joinQueue [] [["s1"]] "s1" "alice").replies =
      [JoinReply.fail "you are already in a room",
       JoinReply.ok "you entered the waiting queue"] ∧
    (joinQueue [] [["s1"]] "s1" "alice").queue =
      [{ socketId := "s1", username := "alice" }] :=
  ⟨rfl, rfl⟩

/-- C9: edge equality is symmetric: isLineAlreadyDrawn treats a move and
its reversed orientation identically, and once a line with the same edge
in either orientation is present, submitting the move in either
orientation is rejected with an error. -/
theorem duplicate_check_symmetric (gs : GameState) (m : Line) :
    isLineAlreadyDrawn gs m = isLineAlreadyDrawn gs (reverseLine m) ∧
    (∀ (u : Nat → Nat → String) (p : PlayerNumber) (l : Line), l ∈ gs.lines →
      lineMatches l m.start m.«end» = true →
      (∃ e, submitMove u gs p m = Except.error e) ∧
      (∃ e, submitMove u gs p (reverseLine m) = Except.error e)) := by
  constructor
  · exact (isLineAlreadyDrawn_reverse gs m).symm
  · intro u p l hl hm
    have hd : isLineAlreadyDrawn gs m = true :=
      (drawn_iff_edgePresent gs m).mpr ⟨l, hl, hm⟩
    have hd2 : isLineAlreadyDrawn gs (reverseLine m) = true := by
      rw [isLineAlreadyDrawn_reverse]
      exact hd
    exact ⟨submitMove_error_of_drawn u gs p m hd,
      submitMove_error_of_drawn u gs p (reverseLine m) hd2⟩

/-- C9 witness: after e00 is drawn, resubmitting it (in either
orientation) is rejected. -/
theorem duplicate_check_symmetric_witness :
    (∃ e, submitMove uuid0 gsWithE00 PlayerNumber.one e00 = Except.error e) ∧
    (∃ e, submitMove uuid0 gsWithE00 PlayerNumber.one (reverseLine e00) = Except.error e) :=
  (duplicate_check_symmetric gsWithE00 e00).2 uuid0 PlayerNumber.one e00
    (by decide) (by decide)

/-- C10: every reachable state with active status has a non-empty
available-move list, so the null branch of makeRandomMove is unreachable
while the game is active. -/
theorem active_reachable_has_moves (gs : GameState) (h : Reachable gs)
    (ha : gs.gameStatus = GameStatus.active) :
    getAvailableMoves gs ≠ [] ∧
    ∀ (u : Nat → Nat → String) (k : Nat), (makeRandomMove u k gs).isSome = true := by
  refine ⟨reachable_active_avail gs h ha, fun u k => ?_⟩
  unfold makeRandomMove
  rcases havail : getAvailableMoves gs with _ | ⟨a, rest⟩
  · exact absurd havail (reachable_active_avail gs h ha)
  · rfl

/-- C10 witness: the initial reachable active state has available
moves. -/
theorem active_reachable_has_moves_witness :
    getAvailableMoves initialGameState ≠ [] :=
  (active_reachable_has_moves initialGameState Reachable.init rfl).1

end IQDuel
